import Mathlib

/-!
# Verification of the bytemason code-generation pipeline

Shallow embedding of the core logic of the repository:

* `sanitizeRoutePath` — the dynamic-segment path rewrite
  (`path.replace(/\x7b(\w+)\x7d/g, '[$1]')`) from the code-generation
  route handler;
* the file-tree assembly (`FileStructure` building) of the same handler;
* the zod schemas (`GeneratedCodeSchema`, `SpecSchema`) and the
  fail-closed behaviour of the generation endpoint;
* the `OPENAI_API_KEY` module-level guard of `app/lib/openai.ts`;
* spec-modelled components (ProjectSpec closure, repair loop) whose
  implementation is not part of the source tree.
-/

/-! ## Definitions: path rewrite `sanitizeRoutePath`

The source is `path.replace(/\x7b(\w+)\x7d/g, '[$1]')`: every occurrence
of an opening brace, followed by a nonempty run of word characters,
followed by a closing brace, is replaced by the same name in square
brackets; the replacement is global (left to right, non-overlapping).
`\w` in a JavaScript regex (no unicode flag) is `[A-Za-z0-9_]`.
-/

/-- JavaScript regex `\w`: ASCII letters, digits and underscore. -/
def isWordChar (c : Char) : Bool :=
  (('a' ≤ c && c ≤ 'z') || ('A' ≤ c && c ≤ 'Z') || ('0' ≤ c && c ≤ '9') || c == '_')

/-- Maximal word-character prefix of a character list, and the rest.
This models the greedy matching of `\w+` (greedy matching followed by a
mandatory non-word character `\x7d` never backtracks). -/
def wordSpan : List Char → List Char × List Char
  | [] => ([], [])
  | c :: rest =>
    if isWordChar c then
      ((c :: (wordSpan rest).1), (wordSpan rest).2)
    else
      ([], c :: rest)

/-- Attempt to match the tail of `\x7b(\w+)\x7d` at the head of `l`
(the opening brace has already been consumed): a nonempty word run
followed by a closing brace.  Returns the captured word and the rest. -/
def matchParam (l : List Char) : Option (List Char × List Char) :=
  if (wordSpan l).1.isEmpty then none
  else if (wordSpan l).2.head? = some '\x7d' then
    some ((wordSpan l).1, (wordSpan l).2.tail)
  else none

/-- Fuel-driven scanner for the global replace; the fuel is an upper
bound on the input length, so the function is structurally recursive
(hence computable by the kernel) while following exactly the regex
scan: at each `\x7b` try the match, on success emit `[w]` and resume
after it, on failure emit the character and resume at the next
position. -/
def sanitizeGo : Nat → List Char → List Char
  | 0, l => l
  | _ + 1, [] => []
  | fuel + 1, c :: rest =>
    if c = '\x7b' then
      (matchParam rest).elim ('\x7b' :: sanitizeGo fuel rest)
        (fun p => '[' :: (p.1 ++ ']' :: sanitizeGo fuel p.2))
    else
      c :: sanitizeGo fuel rest

/-- The global regex replace `replace(/\x7b(\w+)\x7d/g, '[$1]')` on a
character list. -/
def sanitizeChars (l : List Char) : List Char :=
  sanitizeGo l.length l

/-- String-level wrapper: the embedding of `sanitizeRoutePath`. -/
def sanitizeRoutePath (path : String) : String :=
  String.mk (sanitizeChars path.data)

/-- Does the list contain an occurrence of the pattern
`\x7b(\w+)\x7d` (i.e. would the regex find a match)? -/
def hasMatch : List Char → Bool
  | [] => false
  | c :: rest => (c = '\x7b' && (matchParam rest).isSome) || hasMatch rest

/-- A segment of the decomposition the regex replace induces on its
input: either a single character outside every match, or one matched
parameter `\x7b w \x7d` (stored as the captured word `w`). -/
inductive PathSeg where
  | lit (c : Char) : PathSeg
  | param (w : List Char) : PathSeg

/-- Tokenizer with the same scan structure as `sanitizeGo`: it records
the decomposition of the input into literal characters and matched
parameter segments. -/
def tokenizeGo : Nat → List Char → List PathSeg
  | 0, _ => []
  | _ + 1, [] => []
  | fuel + 1, c :: rest =>
    if c = '\x7b' then
      (matchParam rest).elim (PathSeg.lit '\x7b' :: tokenizeGo fuel rest)
        (fun p => PathSeg.param p.1 :: tokenizeGo fuel p.2)
    else
      PathSeg.lit c :: tokenizeGo fuel rest

/-- Decomposition of a path into literal and parameter segments. -/
def tokenizePath (l : List Char) : List PathSeg :=
  tokenizeGo l.length l

/-- A literal segment flattens to itself; a parameter segment flattens
to its original brace-delimited text. -/
def flattenSeg : PathSeg → List Char
  | .lit c => [c]
  | .param w => '\x7b' :: (w ++ ['\x7d'])

/-- A literal segment renders to itself; a parameter segment renders to
its bracket-delimited replacement. -/
def renderSeg : PathSeg → List Char
  | .lit c => [c]
  | .param w => '[' :: (w ++ [']'])

/-- Concatenation of the flattened segments. -/
def flattenSegs (segs : List PathSeg) : List Char :=
  segs.foldr (fun s acc => flattenSeg s ++ acc) []

/-- Concatenation of the rendered segments. -/
def renderSegs (segs : List PathSeg) : List Char :=
  segs.foldr (fun s acc => renderSeg s ++ acc) []

/-! ## Definitions: file-tree assembly

Embedding of the `FileStructure` construction of the code-generation
route handler (`POST`): `package.json`, `types/index.ts`, `utils/…`,
`app/api/…/route.ts`, `app/page.tsx` and `components/….tsx`.
-/

/-- Entry of the in-memory file structure.  The TypeScript interface
allows both `file` and `directory` fields, but the handler only ever
creates entries with exactly one of the two set, which this sum type
captures. -/
inductive FSEntry where
  | file (contents : String) : FSEntry
  | directory (children : List (String × FSEntry)) : FSEntry

/-- JavaScript object-key assignment `obj[k] = v`: update in place when
the key exists, append at the end otherwise. -/
def setKey : List (String × FSEntry) → String → FSEntry → List (String × FSEntry)
  | [], k, v => [(k, v)]
  | (k2, v2) :: rest, k, v =>
    if k2 = k then (k, v) :: rest else (k2, v2) :: setKey rest k v

/-- JavaScript `str.split('/')` (single-character separator, no limit):
the empty string yields `[""]`, adjacent separators yield empty
pieces. -/
def splitSlash : List Char → List (List Char)
  | [] => [[]]
  | c :: rest =>
    if c = '/' then [] :: splitSlash rest
    else
      match splitSlash rest with
      | [] => [[c]]
      | h :: t => (c :: h) :: t

/-- JavaScript `str.replace(pat, rep)` with a plain-string pattern:
replaces the first occurrence only (or none). -/
def replaceFirst : List Char → List Char → List Char → List Char
  | [], pat, rep => if pat.isEmpty then rep else []
  | c :: rest, pat, rep =>
    if pat.isPrefixOf (c :: rest) then rep ++ (c :: rest).drop pat.length
    else c :: replaceFirst rest pat rep

/-- JavaScript `Array.prototype.join(sep)`. -/
def joinSep (sep : String) : List String → String
  | [] => ""
  | [a] => a
  | a :: rest => a ++ sep ++ joinSep sep rest

/-- Handler text for one HTTP method, from the template literal in the
api-routes reduce. -/
def methodHandlerText (method : String) (code : String) : String :=
  "\nexport async function " ++ method ++ "(request: Request) \x7b\n" ++ code ++ "\n\x7d"

/-- Contents of a `route.ts` file, from the template literal around the
joined method handlers. -/
def routeFileContents (routeMethods : String) : String :=
  "\nimport \x7b NextResponse \x7d from \x27next/server\x27;\n" ++ routeMethods ++ "\n"

/-- One method entry of `GeneratedApiRoute.methods`. -/
structure ApiMethod where
  code : String
  description : String

/-- `GeneratedApiRoute`: a path and an ordered method map. -/
structure ApiRoute where
  path : String
  methods : List (String × ApiMethod)

/-- `GeneratedComponent`. -/
structure Component where
  name : String
  code : String
  description : String
  dependencies : List String

/-- `GeneratedCode`: the payload validated by `GeneratedCodeSchema`. -/
structure GeneratedCode where
  components : List Component
  apiRoutes : List ApiRoute
  types : String
  utils : List String

/-- The `pathParts.forEach` of the api-routes reduce, functionally:
walk the parts, creating intermediate directories as needed; at the
last part install a directory holding the `route.ts` file (overwriting
any previous entry at that key).  Returns `none` exactly where the
JavaScript would dereference `undefined` (descending through an entry
that is a file, whose `directory` field is absent). -/
def insertRouteFile : List (String × FSEntry) → List String → String → Option (List (String × FSEntry))
  | acc, [], _ => some acc
  | acc, part :: rest, contents =>
    match rest with
    | [] => some (setKey acc part (FSEntry.directory [("route.ts", FSEntry.file contents)]))
    | _ :: _ =>
      match List.lookup part acc with
      | none =>
        (insertRouteFile [] rest contents).map
          (fun sub => setKey acc part (FSEntry.directory sub))
      | some (FSEntry.directory children) =>
        (insertRouteFile children rest contents).map
          (fun sub => setKey acc part (FSEntry.directory sub))
      | some (FSEntry.file _) => none

/-- One step of the api-routes `reduce`: strip the first `/api/`,
rewrite dynamic segments, join the method handlers; an empty joined
string (falsy) skips the route entirely. -/
def apiRouteStep (acc : Option (List (String × FSEntry))) (route : ApiRoute) :
    Option (List (String × FSEntry)) :=
  match acc with
  | none => none
  | some fs =>
    let routePath := sanitizeRoutePath
      (String.mk (replaceFirst route.path.data "/api/".data "".data))
    let routeMethods := joinSep "\n\n"
      (route.methods.map (fun m => methodHandlerText m.1 m.2.code))
    if routeMethods = "" then some fs
    else
      insertRouteFile fs ((splitSlash routePath.data).map String.mk)
        (routeFileContents routeMethods)

/-- The whole api-routes `reduce`, starting from the empty object. -/
def apiRoutesDir (routes : List ApiRoute) : Option (List (String × FSEntry)) :=
  routes.foldl apiRouteStep (some [])

/-- The utils `reduce`: `util1.ts`, `util2.ts`, … in order. -/
def utilsDir (utils : List String) : List (String × FSEntry) :=
  utils.enum.foldl
    (fun acc p => setKey acc ("util" ++ toString (p.1 + 1) ++ ".ts") (FSEntry.file p.2)) []

/-- The components `reduce`: one `Name.tsx` leaf per component. -/
def componentsDir (comps : List Component) : List (String × FSEntry) :=
  comps.foldl (fun acc c => setKey acc (c.name ++ ".tsx") (FSEntry.file c.code)) []

/-- JavaScript `\s` (common subset): the whitespace characters that can
appear in the app names handled here. -/
def jsWhitespace (c : Char) : Bool :=
  c = ' ' || c = '\t' || c = '\n' || c = '\r' || c = '\x0b' || c = '\x0c'

/-- `replace(/\s+/g, '-')`: each maximal whitespace run becomes one
dash.  The flag records whether the previous character was part of a
whitespace run already replaced. -/
def collapseWsGo : Bool → List Char → List Char
  | _, [] => []
  | inRun, c :: rest =>
    if jsWhitespace c then
      if inRun then collapseWsGo true rest
      else '-' :: collapseWsGo true rest
    else c :: collapseWsGo false rest

def collapseWs (l : List Char) : List Char :=
  collapseWsGo false l

/-- Hexadecimal digit (lower case) for JSON control-character escapes. -/
def hexDigit (n : Nat) : Char :=
  if n < 10 then Char.ofNat (48 + n) else Char.ofNat (97 + n - 10)

/-- `JSON.stringify` escaping of one character inside a string value. -/
def jsonEscapeChar (c : Char) : List Char :=
  if c = '"' then ['\\', '"']
  else if c = '\\' then ['\\', '\\']
  else if c = '\x08' then ['\\', 'b']
  else if c = '\t' then ['\\', 't']
  else if c = '\n' then ['\\', 'n']
  else if c = '\x0c' then ['\\', 'f']
  else if c = '\r' then ['\\', 'r']
  else if c.toNat < 32 then
    ['\\', 'u', '0', '0', hexDigit (c.toNat / 16), hexDigit (c.toNat % 16)]
  else [c]

def jsonEscape (s : String) : String :=
  String.mk (s.data.foldr (fun c acc => jsonEscapeChar c ++ acc) [])

/-- The `package.json` contents: `JSON.stringify({...}, null, 2)` of the
fixed object, whose only input-dependent part is the name slug
`spec.name.toLowerCase().replace(/\s+/g, '-')`. -/
def packageJsonContents (specName : String) : String :=
  let slug := jsonEscape (String.mk (collapseWs specName.toLower.data))
  "\x7b\n  \"name\": \"" ++ slug ++ "\",\n  \"type\": \"module\",\n  \"scripts\": \x7b\n    \"dev\": \"next dev\",\n    \"build\": \"next build\",\n    \"start\": \"next start\"\n  \x7d,\n  \"dependencies\": \x7b\n    \"next\": \"^14.0.0\",\n    \"react\": \"^18.2.0\",\n    \"react-dom\": \"^18.2.0\",\n    \"@types/react\": \"^18.2.0\",\n    \"@types/react-dom\": \"^18.2.0\",\n    \"typescript\": \"^5.0.0\",\n    \"zod\": \"^3.22.0\"\n  \x7d\n\x7d"

/-- The `app/page.tsx` contents, from the template literal. -/
def pageTsxContents (specName : String) (comps : List Component) : String :=
  "\nimport \x7b " ++ joinSep ", " (comps.map Component.name) ++
  " \x7d from \x27@/components\x27;\n\nexport default function Home() \x7b\n  return (\n    <main className=\"min-h-screen p-8\">\n      <h1 className=\"text-3xl font-bold mb-8\">" ++
  specName ++ "</h1>\n      " ++
  joinSep "\n      " (comps.map (fun c => "<" ++ c.name ++ " />")) ++
  "\n    </main>\n  );\n\x7d"

/-- The full `files: FileStructure` object built by the handler from a
validated `GeneratedCode` payload and the spec name.  `none` models the
handler throwing while building (caught by the surrounding `try`). -/
def buildFiles (specName : String) (g : GeneratedCode) : Option (List (String × FSEntry)) :=
  (apiRoutesDir g.apiRoutes).map (fun apiDir =>
    [("package.json", FSEntry.file (packageJsonContents specName)),
     ("types", FSEntry.directory [("index.ts", FSEntry.file g.types)]),
     ("utils", FSEntry.directory (utilsDir g.utils)),
     ("app", FSEntry.directory
       [("api", FSEntry.directory apiDir),
        ("page.tsx", FSEntry.file (pageTsxContents specName g.components))]),
     ("components", FSEntry.directory (componentsDir g.components))])

/-- The nested singleton directory chain a single route produces in an
empty accumulator: one directory per path part, the last holding the
`route.ts` file. -/
def nestedRouteDirs : List String → String → List (String × FSEntry)
  | [], _ => []
  | part :: rest, contents =>
    match rest with
    | [] => [(part, FSEntry.directory [("route.ts", FSEntry.file contents)])]
    | _ :: _ => [(part, FSEntry.directory (nestedRouteDirs rest contents))]

/-- Number of occurrences of a nonempty pattern in a character list
(counted at every position). -/
def countSub (pat : List Char) : List Char → Nat
  | [] => 0
  | c :: rest =>
    (if !pat.isEmpty && pat.isPrefixOf (c :: rest) then 1 else 0) + countSub pat rest

/-- Scenario A artifact set: one component `TodoList`, one api route
`GET /api/todos`, shared types, no utils. -/
def scenarioA : GeneratedCode :=
  { components := [⟨"TodoList", "export function TodoList() \x7b return null; \x7d",
      "Displays todos", []⟩],
    apiRoutes := [⟨"/api/todos", [("GET", ⟨"  return NextResponse.json([]);", "List todos"⟩)]⟩],
    types := "export interface Todo \x7b id: string \x7d",
    utils := [] }

/-- The route-handler file Scenario A is expected to produce. -/
def expectedRouteContents : String :=
  "\nimport \x7b NextResponse \x7d from \x27next/server\x27;\n\nexport async function GET(request: Request) \x7b\n  return NextResponse.json([]);\n\x7d\n"

/-! ## Definitions: JSON values, zod schemas, the generation endpoint -/

/-- JSON values (numbers as integers; no schema field here is numeric). -/
inductive Json where
  | null : Json
  | bool (b : Bool) : Json
  | num (n : Int) : Json
  | str (s : String) : Json
  | arr (elems : List Json) : Json
  | obj (fields : List (String × Json)) : Json

/-- All-or-nothing traversal (zod arrays/records fail on the first
invalid element). -/
def traverseOption {α β : Type} (f : α → Option β) : List α → Option (List β)
  | [] => some []
  | a :: rest =>
    match f a, traverseOption f rest with
    | some b, some bs => some (b :: bs)
    | _, _ => none

/-- `z.string()`. -/
def decodeString : Json → Option String
  | .str s => some s
  | _ => none

/-- Object-field lookup. -/
def getField (fields : List (String × Json)) (k : String) : Option Json :=
  List.lookup k fields

/-- `z.array(f)`. -/
def decodeJsonArray {α : Type} (f : Json → Option α) : Json → Option (List α)
  | .arr es => traverseOption f es
  | _ => none

/-- `z.record(f)`: an object all of whose values satisfy `f`. -/
def decodeRecord {α : Type} (f : Json → Option α) : Json → Option (List (String × α))
  | .obj fields => traverseOption (fun p => (f p.2).map (fun v => (p.1, v))) fields
  | _ => none

/-- `ApiMethodSchema`. -/
def decodeApiMethod : Json → Option ApiMethod
  | .obj fields =>
    match getField fields "code", getField fields "description" with
    | some cj, some dj =>
      match decodeString cj, decodeString dj with
      | some c, some d => some ⟨c, d⟩
      | _, _ => none
    | _, _ => none
  | _ => none

/-- `ApiRouteSchema`. -/
def decodeApiRoute : Json → Option ApiRoute
  | .obj fields =>
    match getField fields "path", getField fields "methods" with
    | some pj, some mj =>
      match decodeString pj, decodeRecord decodeApiMethod mj with
      | some p, some ms => some ⟨p, ms⟩
      | _, _ => none
    | _, _ => none
  | _ => none

/-- `ComponentSchema`. -/
def decodeComponent : Json → Option Component
  | .obj fields =>
    match getField fields "name", getField fields "code",
      getField fields "description", getField fields "dependencies" with
    | some nj, some cj, some dj, some depj =>
      match decodeString nj, decodeString cj, decodeString dj,
        decodeJsonArray decodeString depj with
      | some n, some c, some d, some deps => some ⟨n, c, d, deps⟩
      | _, _, _, _ => none
    | _, _, _, _ => none
  | _ => none

/-- `GeneratedCodeSchema.parse` as a decoder: `some` on conforming
input, `none` where zod would throw. -/
def decodeGeneratedCode : Json → Option GeneratedCode
  | .obj fields =>
    match getField fields "components", getField fields "apiRoutes",
      getField fields "types", getField fields "utils" with
    | some cj, some rj, some tj, some uj =>
      match decodeJsonArray decodeComponent cj, decodeJsonArray decodeApiRoute rj,
        decodeString tj, decodeJsonArray decodeString uj with
      | some cs, some rs, some t, some us => some ⟨cs, rs, t, us⟩
      | _, _, _, _ => none
    | _, _, _, _ => none
  | _ => none

/-- Result of the generation endpoint: a complete file structure, or
the fixed error response. -/
inductive PostResult where
  | ok (files : List (String × FSEntry)) : PostResult
  | err (message : String) (status : Nat) : PostResult

/-- The generation endpoint after the model call: `message?.content`
may be absent or unparsable (`none`), the parsed content may fail
schema validation, and any exception inside the `try` block is caught
and mapped to the fixed 500 error response. -/
def codeGenPOST (specName : String) (parsedContent : Option Json) : PostResult :=
  match parsedContent with
  | none => .err "Failed to generate code. Please try again." 500
  | some j =>
    match decodeGeneratedCode j with
    | none => .err "Failed to generate code. Please try again." 500
    | some g =>
      match buildFiles specName g with
      | none => .err "Failed to generate code. Please try again." 500
      | some files => .ok files

/-! ## Definitions: the `OPENAI_API_KEY` module-level guard -/

structure OpenAIClient where
  apiKey : String

/-- Module top level of `app/lib/openai.ts`:
`if (!process.env.OPENAI_API_KEY) throw new Error(...)` runs at import
time; an unset variable — or one set to the empty string, which is
falsy — raises before the client is constructed. -/
def initOpenAIModule : Option String → Except String OpenAIClient
  | none => .error "Missing OPENAI_API_KEY environment variable"
  | some key =>
    if key = "" then .error "Missing OPENAI_API_KEY environment variable"
    else .ok ⟨key⟩

/-- A pipeline stage (extraction, synthesis, repair) imports the client
from the module, so its body runs only on a successfully constructed
client. -/
def runPipelineStage {α : Type} (env : Option String) (stage : OpenAIClient → α) :
    Except String α :=
  (initOpenAIModule env).map stage

/-! ## Definitions: spec-modelled ProjectSpec validation

The pages-based ProjectSpec and its validation live in the Python CLI,
which is not part of the source tree (only its documentation is); the
structures below are modelled from the spec.
-/

/-- Modelled from the spec: a ProjectSpec page — path, description, and
the api routes and components it references. -/
structure PageSpec where
  path : String
  description : String
  apiRoutes : List String
  components : List String

/-- Modelled from the spec: a ProjectSpec component entry. -/
structure ComponentSpec where
  name : String
  description : String
  isClient : Bool

/-- Modelled from the spec: a ProjectSpec api-route entry. -/
structure ApiRouteSpec where
  path : String
  method : String
  description : String
  query : Option String

/-- Modelled from the spec: a ProjectSpec database table entry. -/
structure TableSpec where
  name : String
  sqlSchema : String

/-- Modelled from the spec: the ProjectSpec document. -/
structure ProjectSpec where
  name : String
  description : String
  pages : List PageSpec
  components : List ComponentSpec
  apiRoutes : List ApiRouteSpec
  database : List TableSpec

/-- No two api routes share both path and method. -/
def distinctRouteKeys : List ApiRouteSpec → Bool
  | [] => true
  | a :: rest =>
    rest.all (fun b => !(b.path = a.path && b.method = a.method)) && distinctRouteKeys rest

/-- Modelled from the spec: ProjectSpec validation — every api route
and component referenced by a page exists in the corresponding
top-level list, and api route paths are unique per method. -/
def validProjectSpec (s : ProjectSpec) : Bool :=
  s.pages.all (fun p =>
    p.apiRoutes.all (fun r => s.apiRoutes.any (fun a => a.path = r)) &&
    p.components.all (fun c => s.components.any (fun comp => comp.name = c))) &&
  distinctRouteKeys s.apiRoutes

/-- The worked /todos example spec from the documentation, restricted to
the fields modelled here. -/
def exampleProjectSpec : ProjectSpec :=
  { name := "todo-app",
    description := "A simple todo application",
    pages :=
      [⟨"/todos", "Displays the list of todos", ["/api/todos"],
        ["TodoList", "AddTodoForm"]⟩],
    components :=
      [⟨"TodoList", "Displays a list of todos", true⟩,
       ⟨"AddTodoForm", "Form component to add new todos", true⟩],
    apiRoutes :=
      [⟨"/api/todos", "GET", "Fetches the list of todos", some "SELECT * FROM todos"⟩,
       ⟨"/api/todos", "POST", "Creates a new todo item", some "INSERT INTO todos"⟩],
    database := [⟨"todos", "CREATE TABLE public.todos (id SERIAL PRIMARY KEY)"⟩] }

/-! ## Definitions: spec-modelled repair loop -/

/-- Modelled from the spec: the phases of the RepairLoop state machine
(§4.7), with the two terminal states. -/
inductive LoopPhase where
  | verifying : LoopPhase
  | analyzing : LoopPhase
  | repairing : LoopPhase
  | succeeded : LoopPhase
  | exhausted : LoopPhase
deriving DecidableEq

structure LoopState where
  phase : LoopPhase
  attempts : Nat
deriving DecidableEq

/-- Modelled from the spec: one transition of the RepairLoop.
`buildOk n` is the outcome of the verification run at attempt counter
`n` (the build outcome sequence is arbitrary: repair monotonicity is
not assumed, and the structured report plays no role in control flow).
Verifying goes to Succeeded on a zero exit, to Exhausted when the
attempt counter has reached the bound, and to Analyzing otherwise;
Analyzing always goes to Repairing; Repairing returns to Verifying and
increments the attempt counter exactly once per cycle; terminal states
are absorbing. -/
def loopStep (maxAttempts : Nat) (buildOk : Nat → Bool) (s : LoopState) : LoopState :=
  match s.phase with
  | .verifying =>
    if buildOk s.attempts then { s with phase := .succeeded }
    else if s.attempts = maxAttempts then { s with phase := .exhausted }
    else { s with phase := .analyzing }
  | .analyzing => { s with phase := .repairing }
  | .repairing => { phase := .verifying, attempts := s.attempts + 1 }
  | .succeeded => s
  | .exhausted => s

/-- Initial state: Verifying, entered with the freshly assembled tree. -/
def initLoopState : LoopState :=
  { phase := .verifying, attempts := 0 }

/-- The loop after `n` transitions. -/
def runLoop (maxAttempts : Nat) (buildOk : Nat → Bool) (n : Nat) : LoopState :=
  (loopStep maxAttempts buildOk)^[n] initLoopState

def isTerminal (s : LoopState) : Bool :=
  s.phase = .succeeded || s.phase = .exhausted

/-! ## Theorems: basic facts about `wordSpan` and `matchParam` -/

theorem wordSpan_append : ∀ l : List Char, (wordSpan l).1 ++ (wordSpan l).2 = l := by
  intro l
  induction l with
  | nil => simp [wordSpan]
  | cons c rest ih =>
    by_cases h : isWordChar c
    · simp [wordSpan, h, ih]
    · simp [wordSpan, h]

theorem wordSpan_fst_word : ∀ l : List Char, ∀ c ∈ (wordSpan l).1, isWordChar c = true := by
  intro l
  induction l with
  | nil => simp [wordSpan]
  | cons c rest ih =>
    by_cases h : isWordChar c
    · simp only [wordSpan, h, if_true]
      intro d hd
      rcases List.mem_cons.mp hd with h1 | h2
      · exact h1 ▸ h
      · exact ih d h2
    · simp [wordSpan, h]

theorem wordSpan_snd_head : ∀ l : List Char, ∀ e t, (wordSpan l).2 = e :: t → isWordChar e = false := by
  intro l
  induction l with
  | nil => simp [wordSpan]
  | cons c rest ih =>
    by_cases h : isWordChar c
    · simp only [wordSpan, h, if_true]
      exact ih
    · simp only [wordSpan, h, if_false]
      intro e t he
      cases he
      simpa using h

theorem wordSpan_snd_length : ∀ l : List Char, (wordSpan l).2.length ≤ l.length := by
  intro l
  have h := congrArg List.length (wordSpan_append l)
  simp only [List.length_append] at h
  omega

/-- `wordSpan` on a word run followed by anything. -/
theorem wordSpan_word_append (w t : List Char) (hw : ∀ c ∈ w, isWordChar c = true) :
    wordSpan (w ++ t) = (w ++ (wordSpan t).1, (wordSpan t).2) := by
  induction w with
  | nil => simp
  | cons c w2 ih =>
    have hc : isWordChar c = true := hw c (by simp)
    have hw2 : ∀ d ∈ w2, isWordChar d = true := fun d hd => hw d (by simp [hd])
    simp [wordSpan, hc, ih hw2]

theorem wordSpan_cons_not_word {c : Char} (t : List Char) (h : isWordChar c = false) :
    wordSpan (c :: t) = ([], c :: t) := by
  simp [wordSpan, h]

theorem matchParam_some {l w r : List Char} (h : matchParam l = some (w, r)) :
    l = w ++ '\x7d' :: r ∧ w ≠ [] ∧ (∀ c ∈ w, isWordChar c = true) := by
  unfold matchParam at h
  split_ifs at h with h1 h2
  have hpair : ((wordSpan l).1, (wordSpan l).2.tail) = (w, r) := Option.some.inj h
  have hw : (wordSpan l).1 = w := congrArg Prod.fst hpair
  have hr : (wordSpan l).2.tail = r := congrArg Prod.snd hpair
  have hex : ∃ t, (wordSpan l).2 = '\x7d' :: t := by
    cases hsnd : (wordSpan l).2 with
    | nil => rw [hsnd] at h2; simp at h2
    | cons e t =>
      rw [hsnd] at h2
      simp only [List.head?_cons, Option.some.injEq] at h2
      exact ⟨t, by rw [h2]⟩
  obtain ⟨t, hsnd⟩ := hex
  have hr2 : r = t := by rw [← hr, hsnd, List.tail_cons]
  refine ⟨?_, ?_, ?_⟩
  · have hap := wordSpan_append l
    rw [hw, hsnd] at hap
    rw [← hap, hr2]
  · intro hnil
    exact h1 (by rw [hw, hnil]; rfl)
  · exact fun c hc => wordSpan_fst_word l c (by rw [hw]; exact hc)

theorem matchParam_some_length {l w r : List Char} (h : matchParam l = some (w, r)) :
    r.length < l.length := by
  have h1 := (matchParam_some h).1
  have h2 := (matchParam_some h).2.1
  have h3 := congrArg List.length h1
  simp only [List.length_append, List.length_cons] at h3
  have hw : 0 < w.length := List.length_pos.mpr h2
  omega

/-- Characterisation of a failed match. -/
theorem matchParam_none {l : List Char} (h : matchParam l = none) :
    (wordSpan l).1 = [] ∨ (wordSpan l).2.head? ≠ some '\x7d' := by
  unfold matchParam at h
  split_ifs at h with h1 h2
  · left; simpa using h1
  · right; exact h2

theorem matchParam_none_of (hl : (wordSpan l).1 = [] ∨ (wordSpan l).2.head? ≠ some '\x7d') :
    matchParam l = none := by
  unfold matchParam
  rcases hl with h | h <;> simp [h]

/-! ## Theorems: unfolding equations of the scanners -/

/-- The fuel is irrelevant as long as it dominates the input length. -/
theorem sanitizeGo_fuel : ∀ f1 f2 : Nat, ∀ l : List Char,
    l.length ≤ f1 → l.length ≤ f2 → sanitizeGo f1 l = sanitizeGo f2 l := by
  intro f1
  induction f1 with
  | zero =>
    intro f2 l h1 _
    have : l = [] := List.length_eq_zero.mp (Nat.le_zero.mp h1)
    subst this
    cases f2 <;> rfl
  | succ f ih =>
    intro f2 l h1 h2
    cases l with
    | nil => cases f2 <;> rfl
    | cons c rest =>
      cases f2 with
      | zero => simp at h2
      | succ g =>
        simp only [List.length_cons, Nat.succ_le_succ_iff] at h1 h2
        show sanitizeGo (f + 1) (c :: rest) = sanitizeGo (g + 1) (c :: rest)
        simp only [sanitizeGo]
        by_cases hc : c = '\x7b'
        · simp only [hc, if_true]
          rcases hm : matchParam rest with _ | ⟨w, r2⟩
          · simp only [Option.elim]
            rw [ih g rest h1 h2]
          · simp only [Option.elim]
            have hlen : r2.length < rest.length := matchParam_some_length hm
            rw [ih g r2 (by omega) (by omega)]
        · simp only [hc, if_false]
          rw [ih g rest h1 h2]

theorem sanitizeChars_nil : sanitizeChars [] = [] := rfl

theorem sanitizeChars_cons_ne {c : Char} (rest : List Char) (hc : c ≠ '\x7b') :
    sanitizeChars (c :: rest) = c :: sanitizeChars rest := by
  show sanitizeGo (rest.length + 1) (c :: rest) = c :: sanitizeGo rest.length rest
  simp [sanitizeGo, hc]

theorem sanitizeChars_cons_match {rest w r2 : List Char}
    (hm : matchParam rest = some (w, r2)) :
    sanitizeChars ('\x7b' :: rest) = '[' :: (w ++ ']' :: sanitizeChars r2) := by
  show sanitizeGo (rest.length + 1) ('\x7b' :: rest) = _
  simp only [sanitizeGo, if_true, hm, Option.elim]
  have hlen : r2.length < rest.length := matchParam_some_length hm
  rw [sanitizeGo_fuel rest.length r2.length r2 (by omega) (le_refl _)]
  simp [sanitizeChars]

theorem sanitizeChars_cons_nomatch {rest : List Char}
    (hm : matchParam rest = none) :
    sanitizeChars ('\x7b' :: rest) = '\x7b' :: sanitizeChars rest := by
  show sanitizeGo (rest.length + 1) ('\x7b' :: rest) = _
  simp [sanitizeGo, hm, sanitizeChars]

theorem tokenizeGo_fuel : ∀ f1 f2 : Nat, ∀ l : List Char,
    l.length ≤ f1 → l.length ≤ f2 → tokenizeGo f1 l = tokenizeGo f2 l := by
  intro f1
  induction f1 with
  | zero =>
    intro f2 l h1 _
    have : l = [] := List.length_eq_zero.mp (Nat.le_zero.mp h1)
    subst this
    cases f2 <;> rfl
  | succ f ih =>
    intro f2 l h1 h2
    cases l with
    | nil => cases f2 <;> rfl
    | cons c rest =>
      cases f2 with
      | zero => simp at h2
      | succ g =>
        simp only [List.length_cons, Nat.succ_le_succ_iff] at h1 h2
        show tokenizeGo (f + 1) (c :: rest) = tokenizeGo (g + 1) (c :: rest)
        simp only [tokenizeGo]
        by_cases hc : c = '\x7b'
        · simp only [hc, if_true]
          rcases hm : matchParam rest with _ | ⟨w, r2⟩
          · simp only [Option.elim]
            rw [ih g rest h1 h2]
          · simp only [Option.elim]
            have hlen : r2.length < rest.length := matchParam_some_length hm
            rw [ih g r2 (by omega) (by omega)]
        · simp only [hc, if_false]
          rw [ih g rest h1 h2]

theorem tokenizePath_nil : tokenizePath [] = [] := rfl

theorem tokenizePath_cons_ne {c : Char} (rest : List Char) (hc : c ≠ '\x7b') :
    tokenizePath (c :: rest) = PathSeg.lit c :: tokenizePath rest := by
  show tokenizeGo (rest.length + 1) (c :: rest) = PathSeg.lit c :: tokenizeGo rest.length rest
  simp [tokenizeGo, hc]

theorem tokenizePath_cons_match {rest w r2 : List Char}
    (hm : matchParam rest = some (w, r2)) :
    tokenizePath ('\x7b' :: rest) = PathSeg.param w :: tokenizePath r2 := by
  show tokenizeGo (rest.length + 1) ('\x7b' :: rest) = _
  simp only [tokenizeGo, if_true, hm, Option.elim]
  have hlen : r2.length < rest.length := matchParam_some_length hm
  rw [tokenizeGo_fuel rest.length r2.length r2 (by omega) (le_refl _)]
  simp [tokenizePath]

theorem tokenizePath_cons_nomatch {rest : List Char}
    (hm : matchParam rest = none) :
    tokenizePath ('\x7b' :: rest) = PathSeg.lit '\x7b' :: tokenizePath rest := by
  show tokenizeGo (rest.length + 1) ('\x7b' :: rest) = _
  simp [tokenizeGo, hm, tokenizePath]

/-! ## Theorems: idempotence and frame preservation of the rewrite -/

theorem isWordChar_ne_delims {c : Char} (h : isWordChar c = true) :
    c ≠ '\x7b' ∧ c ≠ '\x7d' ∧ c ≠ '[' ∧ c ≠ ']' := by
  refine ⟨?_, ?_, ?_, ?_⟩ <;> (intro hc; subst hc; revert h; decide)

/-- Characters other than `\x7b` pass through the scanner unchanged,
independently of what follows them. -/
theorem sanitizeChars_append_of_no_brace (w t : List Char)
    (hw : ∀ c ∈ w, c ≠ '\x7b') :
    sanitizeChars (w ++ t) = w ++ sanitizeChars t := by
  induction w with
  | nil => simp
  | cons c w2 ih =>
    have hc : c ≠ '\x7b' := hw c (by simp)
    have hw2 : ∀ d ∈ w2, d ≠ '\x7b' := fun d hd => hw d (by simp [hd])
    rw [List.cons_append, sanitizeChars_cons_ne _ hc, ih hw2, List.cons_append]

/-- The head of the output: either the head of the input (unchanged),
or `[` when the head of the input is `\x7b` and opens a match. -/
theorem sanitizeChars_head (c : Char) (rest : List Char) :
    ∃ e tl, sanitizeChars (c :: rest) = e :: tl ∧
      (e = c ∨ (c = '\x7b' ∧ e = '[')) := by
  by_cases hc : c = '\x7b'
  · subst hc
    rcases hm : matchParam rest with _ | ⟨w, r2⟩
    · exact ⟨'\x7b', sanitizeChars rest, sanitizeChars_cons_nomatch hm, Or.inl rfl⟩
    · exact ⟨'[', w ++ ']' :: sanitizeChars r2, sanitizeChars_cons_match hm,
        Or.inr ⟨rfl, rfl⟩⟩
  · exact ⟨c, sanitizeChars rest, sanitizeChars_cons_ne rest hc, Or.inl rfl⟩

theorem hasMatch_cons_ne {c : Char} (rest : List Char) (hc : c ≠ '\x7b') :
    hasMatch (c :: rest) = hasMatch rest := by
  simp [hasMatch, hc]

theorem hasMatch_append_of_no_brace (w t : List Char)
    (hw : ∀ c ∈ w, c ≠ '\x7b') :
    hasMatch (w ++ t) = hasMatch t := by
  induction w with
  | nil => simp
  | cons c w2 ih =>
    have hc : c ≠ '\x7b' := hw c (by simp)
    have hw2 : ∀ d ∈ w2, d ≠ '\x7b' := fun d hd => hw d (by simp [hd])
    rw [List.cons_append, hasMatch_cons_ne _ hc, ih hw2]

/-- A failed match attempt stays failed after the tail has been
sanitized: the rewrite never manufactures a new match site. -/
theorem matchParam_sanitizeChars_none {rest : List Char}
    (hm : matchParam rest = none) :
    matchParam (sanitizeChars rest) = none := by
  cases rest with
  | nil => rfl
  | cons d rest2 =>
    by_cases hd : isWordChar d
    · -- nonempty word prefix: the failure is at the character after it
      have hspan : wordSpan (d :: rest2) =
          (d :: (wordSpan rest2).1, (wordSpan rest2).2) := by
        simp [wordSpan, hd]
      rcases matchParam_none hm with hfst | hsnd
      · rw [hspan] at hfst; simp at hfst
      · rw [hspan] at hsnd
        set w : List Char := d :: (wordSpan rest2).1 with hwdef
        set r : List Char := (wordSpan rest2).2 with hrdef
        have hword : ∀ c ∈ w, isWordChar c = true := by
          intro c hc
          rcases List.mem_cons.mp hc with h1 | h1
          · exact h1 ▸ hd
          · exact wordSpan_fst_word rest2 c h1
        have hnb : ∀ c ∈ w, c ≠ '\x7b' := fun c hc =>
          (isWordChar_ne_delims (hword c hc)).1
        have hrest : d :: rest2 = w ++ r := by
          rw [hwdef, hrdef]
          have := wordSpan_append (d :: rest2)
          rw [hspan] at this
          exact this.symm
        rw [hrest, sanitizeChars_append_of_no_brace w r hnb]
        cases hr : r with
        | nil =>
          apply matchParam_none_of
          right
          rw [wordSpan_word_append w (sanitizeChars []) hword]
          simp [sanitizeChars_nil, wordSpan]
        | cons e r2 =>
          have he : isWordChar e = false := wordSpan_snd_head (d :: rest2) e r2 (by
            rw [hspan]; exact hr)
          have hene : e ≠ '\x7d' := by
            intro hee
            rw [hr, hee] at hsnd
            simp at hsnd
          obtain ⟨e2, tl2, heq, hor⟩ := sanitizeChars_head e r2
          rw [heq]
          apply matchParam_none_of
          right
          rw [wordSpan_word_append w (e2 :: tl2) hword]
          have he2 : isWordChar e2 = false := by
            rcases hor with h1 | ⟨h1, h2⟩
            · exact h1 ▸ he
            · rw [h2]; decide
          rw [wordSpan_cons_not_word tl2 he2]
          simp only [List.head?_cons, ne_eq, Option.some.injEq]
          intro he2eq
          rcases hor with h1 | ⟨h1, h2⟩
          · exact hene (by rw [← h1, he2eq])
          · rw [h2] at he2eq; exact absurd he2eq (by decide)
    · -- empty word prefix: the head is not a word character
      obtain ⟨e, tl, heq, hor⟩ := sanitizeChars_head d rest2
      rw [heq]
      apply matchParam_none_of
      left
      have he : isWordChar e = false := by
        rcases hor with h1 | ⟨h1, h2⟩
        · exact h1 ▸ (by simpa using hd)
        · rw [h2]; decide
      rw [wordSpan_cons_not_word tl he]

/-- The output of the rewrite contains no match of the pattern. -/
theorem hasMatch_sanitizeGo : ∀ n : Nat, ∀ l : List Char,
    l.length ≤ n → hasMatch (sanitizeChars l) = false := by
  intro n
  induction n with
  | zero =>
    intro l h1
    have : l = [] := List.length_eq_zero.mp (Nat.le_zero.mp h1)
    subst this
    rfl
  | succ n ih =>
    intro l hl
    cases l with
    | nil => rfl
    | cons c rest =>
      simp only [List.length_cons, Nat.succ_le_succ_iff] at hl
      by_cases hc : c = '\x7b'
      · subst hc
        rcases hm : matchParam rest with _ | ⟨w, r2⟩
        · rw [sanitizeChars_cons_nomatch hm]
          simp only [hasMatch, Bool.or_eq_false_iff]
          constructor
          · simp [matchParam_sanitizeChars_none hm]
          · exact ih rest hl
        · rw [sanitizeChars_cons_match hm]
          have hprops := matchParam_some hm
          have hword : ∀ c ∈ w, isWordChar c = true := hprops.2.2
          have hnb : ∀ c ∈ w, c ≠ '\x7b' := fun c hc =>
            (isWordChar_ne_delims (hword c hc)).1
          have hlen : r2.length < rest.length := matchParam_some_length hm
          rw [hasMatch_cons_ne _ (by decide)]
          rw [hasMatch_append_of_no_brace w _ hnb]
          rw [hasMatch_cons_ne _ (by decide)]
          exact ih r2 (by omega)
      · rw [sanitizeChars_cons_ne rest hc]
        rw [hasMatch_cons_ne _ hc]
        exact ih rest hl

theorem hasMatch_sanitizeChars (l : List Char) :
    hasMatch (sanitizeChars l) = false :=
  hasMatch_sanitizeGo l.length l (le_refl _)

/-- A list without a match is left unchanged by the rewrite. -/
theorem sanitizeChars_of_no_match : ∀ l : List Char,
    hasMatch l = false → sanitizeChars l = l := by
  intro l
  induction l with
  | nil => intro _; rfl
  | cons c rest ih =>
    intro h
    simp only [hasMatch, Bool.or_eq_false_iff, Bool.and_eq_false_iff] at h
    obtain ⟨h1, h2⟩ := h
    by_cases hc : c = '\x7b'
    · subst hc
      simp only [decide_eq_false_iff_not, not_true_eq_false, false_or] at h1
      have hm : matchParam rest = none := by
        rcases hmm : matchParam rest with _ | v
        · rfl
        · rw [hmm] at h1; simp at h1
      rw [sanitizeChars_cons_nomatch hm, ih h2]
    · rw [sanitizeChars_cons_ne rest hc, ih h2]

/-- Idempotence of the rewrite, at the character-list level. -/
theorem sanitizeChars_idem (l : List Char) :
    sanitizeChars (sanitizeChars l) = sanitizeChars l :=
  sanitizeChars_of_no_match _ (hasMatch_sanitizeChars l)

theorem flattenSegs_nil : flattenSegs [] = [] := rfl

theorem flattenSegs_cons (s : PathSeg) (rest : List PathSeg) :
    flattenSegs (s :: rest) = flattenSeg s ++ flattenSegs rest := rfl

theorem renderSegs_nil : renderSegs [] = [] := rfl

theorem renderSegs_cons (s : PathSeg) (rest : List PathSeg) :
    renderSegs (s :: rest) = renderSeg s ++ renderSegs rest := rfl

/-- The tokenization flattens back to the input: the decomposition
covers the whole path. -/
theorem flattenSegs_tokenizePath : ∀ n : Nat, ∀ l : List Char,
    l.length ≤ n → flattenSegs (tokenizePath l) = l := by
  intro n
  induction n with
  | zero =>
    intro l h1
    have : l = [] := List.length_eq_zero.mp (Nat.le_zero.mp h1)
    subst this
    rfl
  | succ n ih =>
    intro l hl
    cases l with
    | nil => rfl
    | cons c rest =>
      simp only [List.length_cons, Nat.succ_le_succ_iff] at hl
      by_cases hc : c = '\x7b'
      · subst hc
        rcases hm : matchParam rest with _ | ⟨w, r2⟩
        · rw [tokenizePath_cons_nomatch hm, flattenSegs_cons, ih rest hl]
          rfl
        · rw [tokenizePath_cons_match hm]
          have hlen : r2.length < rest.length := matchParam_some_length hm
          rw [flattenSegs_cons, ih r2 (by omega)]
          have hrest := (matchParam_some hm).1
          rw [hrest]
          simp [flattenSeg]
      · rw [tokenizePath_cons_ne rest hc, flattenSegs_cons, ih rest hl]
        rfl

/-- The rewrite renders the tokenization: literal segments verbatim,
parameter segments bracket-delimited. -/
theorem renderSegs_tokenizePath : ∀ n : Nat, ∀ l : List Char,
    l.length ≤ n → renderSegs (tokenizePath l) = sanitizeChars l := by
  intro n
  induction n with
  | zero =>
    intro l h1
    have : l = [] := List.length_eq_zero.mp (Nat.le_zero.mp h1)
    subst this
    rfl
  | succ n ih =>
    intro l hl
    cases l with
    | nil => rfl
    | cons c rest =>
      simp only [List.length_cons, Nat.succ_le_succ_iff] at hl
      by_cases hc : c = '\x7b'
      · subst hc
        rcases hm : matchParam rest with _ | ⟨w, r2⟩
        · rw [tokenizePath_cons_nomatch hm, renderSegs_cons, ih rest hl,
            sanitizeChars_cons_nomatch hm]
          rfl
        · rw [tokenizePath_cons_match hm]
          have hlen : r2.length < rest.length := matchParam_some_length hm
          rw [renderSegs_cons, ih r2 (by omega), sanitizeChars_cons_match hm]
          simp [renderSeg]
      · rw [tokenizePath_cons_ne rest hc, renderSegs_cons, ih rest hl,
          sanitizeChars_cons_ne rest hc]
        rfl

/-- Every parameter segment of the tokenization is a nonempty word. -/
theorem tokenizePath_param_wf : ∀ n : Nat, ∀ l : List Char, l.length ≤ n →
    ∀ s ∈ tokenizePath l, ∀ w, s = PathSeg.param w →
      w ≠ [] ∧ ∀ c ∈ w, isWordChar c = true := by
  intro n
  induction n with
  | zero =>
    intro l h1
    have : l = [] := List.length_eq_zero.mp (Nat.le_zero.mp h1)
    subst this
    simp [tokenizePath_nil]
  | succ n ih =>
    intro l hl
    cases l with
    | nil => simp [tokenizePath_nil]
    | cons c rest =>
      simp only [List.length_cons, Nat.succ_le_succ_iff] at hl
      by_cases hc : c = '\x7b'
      · subst hc
        rcases hm : matchParam rest with _ | ⟨w0, r2⟩
        · rw [tokenizePath_cons_nomatch hm]
          intro s hs w hsw
          rcases List.mem_cons.mp hs with h1 | h1
          · subst h1; cases hsw
          · exact ih rest hl s h1 w hsw
        · rw [tokenizePath_cons_match hm]
          have hlen : r2.length < rest.length := matchParam_some_length hm
          intro s hs w hsw
          rcases List.mem_cons.mp hs with h1 | h1
          · subst h1
            cases hsw
            exact ⟨(matchParam_some hm).2.1, (matchParam_some hm).2.2⟩
          · exact ih r2 (by omega) s h1 w hsw
      · rw [tokenizePath_cons_ne rest hc]
        intro s hs w hsw
        rcases List.mem_cons.mp hs with h1 | h1
        · subst h1; cases hsw
        · exact ih rest hl s h1 w hsw

/-! ## Claim theorems: the path rewrite (C1, C2, C9) -/

/-- C1.  The dynamic-segment path rewrite is idempotent and
frame-preserving: for every path string `p`, applying the rewrite twice
equals applying it once, and the rewrite factors through a
decomposition of `p` into literal characters (rendered unchanged) and
well-formed brace-delimited parameter segments (rendered in brackets),
so no character outside a parameter segment is altered. -/
theorem sanitizeRoutePath_idempotent_and_frame (p : String) :
    sanitizeRoutePath (sanitizeRoutePath p) = sanitizeRoutePath p ∧
    flattenSegs (tokenizePath p.data) = p.data ∧
    (sanitizeRoutePath p).data = renderSegs (tokenizePath p.data) ∧
    (∀ s ∈ tokenizePath p.data, ∀ w, s = PathSeg.param w →
      w ≠ [] ∧ ∀ c ∈ w, isWordChar c = true) := by
  refine ⟨?_, ?_, ?_, ?_⟩
  · show String.mk (sanitizeChars (sanitizeChars p.data)) = String.mk (sanitizeChars p.data)
    rw [sanitizeChars_idem]
  · exact flattenSegs_tokenizePath p.data.length p.data (le_refl _)
  · exact (renderSegs_tokenizePath p.data.length p.data (le_refl _)).symm
  · exact tokenizePath_param_wf p.data.length p.data (le_refl _)

/-- Witness for C1 at a concrete path. -/
theorem sanitizeRoutePath_idempotent_and_frame_witness :
    sanitizeRoutePath (sanitizeRoutePath "tasks/\x7btaskId\x7d") =
      sanitizeRoutePath "tasks/\x7btaskId\x7d" :=
  (sanitizeRoutePath_idempotent_and_frame "tasks/\x7btaskId\x7d").1

/-- C2.  The rewrite maps `tasks/\x7btaskId\x7d` to `tasks/[taskId]`,
leaves the parameterless `tasks` unchanged, and in general leaves every
path containing no brace-delimited parameter unchanged. -/
theorem sanitizeRoutePath_param_and_identity :
    sanitizeRoutePath "tasks/\x7btaskId\x7d" = "tasks/[taskId]" ∧
    sanitizeRoutePath "tasks" = "tasks" ∧
    (∀ p : String, hasMatch p.data = false → sanitizeRoutePath p = p) := by
  refine ⟨by decide, by decide, ?_⟩
  intro p hp
  show String.mk (sanitizeChars p.data) = p
  rw [sanitizeChars_of_no_match p.data hp]

/-- Witness for C2 at a concrete parameterless path. -/
theorem sanitizeRoutePath_param_and_identity_witness :
    sanitizeRoutePath "api/v1/todos" = "api/v1/todos" :=
  sanitizeRoutePath_param_and_identity.2.2 "api/v1/todos" (by decide)

/-- C9.  Only brace segments whose name is a nonempty run of word
characters are converted: such a segment is rewritten to brackets
wherever it occurs (whatever follows it), a brace segment containing a
non-word character (and no nested braces) is left exactly as written,
no match survives in any output (the substitution is global), and the
concrete examples `\x7btask-id\x7d`, `\x7ba.b\x7d` (unchanged) and a
two-parameter path (both converted) behave accordingly. -/
theorem sanitizeRoutePath_word_chars_only_global :
    (∀ w suffix : List Char, w ≠ [] → (∀ c ∈ w, isWordChar c = true) →
      sanitizeChars ('\x7b' :: (w ++ '\x7d' :: suffix)) =
        '[' :: (w ++ ']' :: sanitizeChars suffix)) ∧
    (∀ w suffix : List Char, (∃ c ∈ w, isWordChar c = false) →
      '\x7b' ∉ w → '\x7d' ∉ w →
      sanitizeChars ('\x7b' :: (w ++ '\x7d' :: suffix)) =
        '\x7b' :: (w ++ '\x7d' :: sanitizeChars suffix)) ∧
    (∀ p : String, hasMatch (sanitizeRoutePath p).data = false) ∧
    sanitizeRoutePath "tasks/\x7btask-id\x7d" = "tasks/\x7btask-id\x7d" ∧
    sanitizeRoutePath "\x7ba.b\x7d" = "\x7ba.b\x7d" ∧
    sanitizeRoutePath "a/\x7bx\x7d/b/\x7by\x7d" = "a/[x]/b/[y]" := by
  refine ⟨?_, ?_, ?_, by decide, by decide, by decide⟩
  · intro w suffix hne hword
    have hm : matchParam (w ++ '\x7d' :: suffix) = some (w, suffix) := by
      unfold matchParam
      rw [wordSpan_word_append w ('\x7d' :: suffix) hword,
        wordSpan_cons_not_word suffix (by decide)]
      simp [List.isEmpty_iff, hne]
    exact sanitizeChars_cons_match hm
  · intro w suffix hnw hnb hnc
    obtain ⟨c0, hc0mem, hc0⟩ := hnw
    have hm : matchParam (w ++ '\x7d' :: suffix) = none := by
      apply matchParam_none_of
      right
      have hsplit := wordSpan_append w
      have hsnd_ne : (wordSpan w).2 ≠ [] := by
        intro hnil
        have : ∀ c ∈ w, isWordChar c = true := by
          intro c hc
          apply wordSpan_fst_word w
          rw [← hsplit] at hc
          simpa [hnil] using hc
        rw [this c0 hc0mem] at hc0
        exact Bool.true_eq_false.mp hc0
      obtain ⟨e, t, het⟩ := List.exists_cons_of_ne_nil hsnd_ne
      have he_mem : e ∈ w := by
        rw [← hsplit, het]
        simp
      have he_ne : e ≠ '\x7d' := fun hh => hnc (hh ▸ he_mem)
      have hw1 : ∀ c ∈ (wordSpan w).1, isWordChar c = true := wordSpan_fst_word w
      have hw_decomp : w ++ '\x7d' :: suffix =
          (wordSpan w).1 ++ ((e :: t) ++ '\x7d' :: suffix) := by
        rw [← het, ← List.append_assoc, hsplit]
      rw [hw_decomp, wordSpan_word_append _ _ hw1]
      simp only [List.cons_append]
      rw [wordSpan_cons_not_word _ (wordSpan_snd_head w e t het)]
      simpa using he_ne
    rw [sanitizeChars_cons_nomatch hm,
      sanitizeChars_append_of_no_brace w _ (fun c hc hh => hnb (hh ▸ hc)),
      sanitizeChars_cons_ne suffix (by decide)]
  · intro p
    exact hasMatch_sanitizeChars p.data

/-- Witness for C9: both general conjuncts applied at concrete inputs. -/
theorem sanitizeRoutePath_word_chars_only_global_witness :
    sanitizeChars ('\x7b' :: (['i', 'd'] ++ '\x7d' :: [])) =
      '[' :: (['i', 'd'] ++ ']' :: sanitizeChars []) ∧
    sanitizeChars ('\x7b' :: (['a', '-', 'b'] ++ '\x7d' :: [])) =
      '\x7b' :: (['a', '-', 'b'] ++ '\x7d' :: sanitizeChars []) :=
  ⟨sanitizeRoutePath_word_chars_only_global.1 ['i', 'd'] [] (by decide) (by decide),
   sanitizeRoutePath_word_chars_only_global.2.1 ['a', '-', 'b'] []
     ⟨'-', by decide, by decide⟩ (by decide) (by decide)⟩

/-! ## Claim theorems: file-tree assembly (C3, C4, C10) -/

/-- A single route inserted into an empty accumulator produces exactly
the nested singleton directory chain ending in `route.ts`. -/
theorem insertRouteFile_empty : ∀ (parts : List String) (contents : String),
    parts ≠ [] → insertRouteFile [] parts contents = some (nestedRouteDirs parts contents) := by
  intro parts
  induction parts with
  | nil => intro contents h; exact absurd rfl h
  | cons part rest ih =>
    intro contents _
    cases rest with
    | nil => rfl
    | cons r rs =>
      show (insertRouteFile [] (r :: rs) contents).map
          (fun sub => setKey [] part (FSEntry.directory sub)) = _
      rw [ih contents (by simp)]
      rfl

set_option maxRecDepth 8000 in
/-- C3.  Scenario A: the artifact set with one api route `GET
/api/todos` and one component `TodoList` assembles to a tree whose
`app/api` directory holds exactly the one directory `todos` with the
single file `route.ts`, whose contents export exactly one handler (the
`GET` one), and whose `components` directory holds exactly the one leaf
`TodoList.tsx`; in general a route inserted into an empty accumulator
yields one nested directory per path part, ending in the fixed
`route.ts` filename. -/
theorem assembleScenarioA_route_tree :
    buildFiles "Todo App" scenarioA = some
      [("package.json", FSEntry.file (packageJsonContents "Todo App")),
       ("types", FSEntry.directory
         [("index.ts", FSEntry.file "export interface Todo \x7b id: string \x7d")]),
       ("utils", FSEntry.directory []),
       ("app", FSEntry.directory
         [("api", FSEntry.directory
            [("todos", FSEntry.directory
              [("route.ts", FSEntry.file expectedRouteContents)])]),
          ("page.tsx", FSEntry.file (pageTsxContents "Todo App" scenarioA.components))]),
       ("components", FSEntry.directory
         [("TodoList.tsx",
           FSEntry.file "export function TodoList() \x7b return null; \x7d")])] ∧
    countSub "export async function ".data expectedRouteContents.data = 1 ∧
    countSub "export async function GET(request: Request)".data expectedRouteContents.data = 1 ∧
    (∀ (parts : List String) (contents : String), parts ≠ [] →
      insertRouteFile [] parts contents = some (nestedRouteDirs parts contents)) := by
  refine ⟨rfl, by decide, by decide, insertRouteFile_empty⟩

/-- Witness for C3 at a concrete two-segment route path. -/
theorem assembleScenarioA_route_tree_witness :
    insertRouteFile [] ["api", "todos"] "x" =
      some (nestedRouteDirs ["api", "todos"] "x") :=
  assembleScenarioA_route_tree.2.2.2 ["api", "todos"] "x" (by simp)

/-- C4.  Assembly is deterministic: identical spec name and identical
validated artifact set produce identical trees (the construction is a
pure function of these two inputs; no clock or randomness occurs in
it). -/
theorem buildFiles_deterministic (n1 n2 : String) (g1 g2 : GeneratedCode)
    (hn : n1 = n2) (hg : g1 = g2) : buildFiles n1 g1 = buildFiles n2 g2 := by
  subst hn; subst hg; rfl

/-- Witness for C4 at the Scenario A inputs. -/
theorem buildFiles_deterministic_witness :
    buildFiles "Todo App" scenarioA = buildFiles "Todo App" scenarioA :=
  buildFiles_deterministic "Todo App" "Todo App" scenarioA scenarioA rfl rfl

/-- C10.  A route whose method map is empty is skipped: the reduce step
returns the accumulator unchanged, so the route contributes no
`route.ts` file and no directories, and the entries of all other routes
are unaffected. -/
theorem emptyMethods_route_omitted (r : ApiRoute) (hm : r.methods = []) :
    (∀ acc, apiRouteStep acc r = acc) ∧
    (∀ pre post : List ApiRoute,
      apiRoutesDir (pre ++ r :: post) = apiRoutesDir (pre ++ post)) ∧
    (∀ (name : String) (g : GeneratedCode) (pre post : List ApiRoute),
      buildFiles name { g with apiRoutes := pre ++ r :: post } =
        buildFiles name { g with apiRoutes := pre ++ post }) := by
  have hstep : ∀ acc, apiRouteStep acc r = acc := by
    intro acc
    cases acc with
    | none => rfl
    | some fs => simp [apiRouteStep, hm, joinSep]
  have hdir : ∀ pre post : List ApiRoute,
      apiRoutesDir (pre ++ r :: post) = apiRoutesDir (pre ++ post) := by
    intro pre post
    show List.foldl apiRouteStep (some []) (pre ++ r :: post) =
      List.foldl apiRouteStep (some []) (pre ++ post)
    rw [List.foldl_append, List.foldl_append, List.foldl_cons, hstep]
  refine ⟨hstep, hdir, ?_⟩
  intro name g pre post
  show (apiRoutesDir (pre ++ r :: post)).map _ = (apiRoutesDir (pre ++ post)).map _
  rw [hdir]

/-- Witness for C10 at a concrete empty-method route. -/
theorem emptyMethods_route_omitted_witness :
    apiRoutesDir ([] ++ (⟨"/api/nothing", []⟩ : ApiRoute) :: []) =
      apiRoutesDir ([] ++ []) :=
  (emptyMethods_route_omitted ⟨"/api/nothing", []⟩ rfl).2.1 [] []

/-! ## Claim theorems: fail-closed generation endpoint (C5) -/

/-- C5.  The endpoint fails closed on invalid model output: a missing
response or a payload rejected by `GeneratedCodeSchema` yields the
fixed 500 error and nothing else; in every case the caller receives
either a complete file structure (built from a successfully validated
payload) or only the error — never a partial artifact set. -/
theorem codeGenPOST_fails_closed :
    (∀ (name : String) (j : Json), decodeGeneratedCode j = none →
      codeGenPOST name (some j) =
        PostResult.err "Failed to generate code. Please try again." 500) ∧
    (∀ name : String, codeGenPOST name none =
      PostResult.err "Failed to generate code. Please try again." 500) ∧
    (∀ (name : String) (content : Option Json),
      (∃ j g files, content = some j ∧ decodeGeneratedCode j = some g ∧
        buildFiles name g = some files ∧
        codeGenPOST name content = PostResult.ok files) ∨
      codeGenPOST name content =
        PostResult.err "Failed to generate code. Please try again." 500) := by
  refine ⟨?_, fun _ => rfl, ?_⟩
  · intro name j h
    simp [codeGenPOST, h]
  · intro name content
    cases content with
    | none => exact Or.inr rfl
    | some j =>
      cases hd : decodeGeneratedCode j with
      | none => exact Or.inr (by simp [codeGenPOST, hd])
      | some g =>
        cases hb : buildFiles name g with
        | none => exact Or.inr (by simp [codeGenPOST, hd, hb])
        | some files =>
          exact Or.inl ⟨j, g, files, rfl, hd, hb, by simp [codeGenPOST, hd, hb]⟩

/-- Witness for C5 at a concrete rejected payload (an empty object). -/
theorem codeGenPOST_fails_closed_witness :
    codeGenPOST "Todo App" (some (Json.obj [])) =
      PostResult.err "Failed to generate code. Please try again." 500 :=
  codeGenPOST_fails_closed.1 "Todo App" (Json.obj []) rfl

/-! ## Claim theorems: ProjectSpec closure (C6, spec-modelled) -/

theorem distinctRouteKeys_pairwise : ∀ l : List ApiRouteSpec,
    distinctRouteKeys l = true →
    l.Pairwise (fun a b => ¬(a.path = b.path ∧ a.method = b.method)) := by
  intro l
  induction l with
  | nil => intro _; exact List.Pairwise.nil
  | cons a rest ih =>
    intro h
    simp only [distinctRouteKeys, Bool.and_eq_true, List.all_eq_true] at h
    refine List.Pairwise.cons ?_ (ih h.2)
    intro b hb hcon
    have hba := h.1 b hb
    simp only [Bool.not_eq_eq_eq_not, Bool.not_true, Bool.and_eq_false_iff,
      decide_eq_false_iff_not] at hba
    rcases hba with hh | hh
    · exact hh hcon.1.symm
    · exact hh hcon.2.symm

/-- C6.  Referenced-entity closure: every spec accepted by the
validation has, for each of its pages, every referenced api route
present in the top-level route list and every referenced component
present in the top-level component list; and no two distinct api routes
share both path and method. -/
theorem validProjectSpec_closure (s : ProjectSpec) (hv : validProjectSpec s = true) :
    (∀ p ∈ s.pages,
      (∀ r ∈ p.apiRoutes, ∃ a ∈ s.apiRoutes, a.path = r) ∧
      (∀ c ∈ p.components, ∃ comp ∈ s.components, comp.name = c)) ∧
    (∀ a1 ∈ s.apiRoutes, ∀ a2 ∈ s.apiRoutes, a1 ≠ a2 →
      ¬(a1.path = a2.path ∧ a1.method = a2.method)) := by
  unfold validProjectSpec at hv
  rw [Bool.and_eq_true] at hv
  obtain ⟨hpages, hkeys⟩ := hv
  constructor
  · intro p hp
    rw [List.all_eq_true] at hpages
    have hpage := hpages p hp
    rw [Bool.and_eq_true] at hpage
    obtain ⟨hroutes, hcomps⟩ := hpage
    constructor
    · intro r hr
      rw [List.all_eq_true] at hroutes
      have := hroutes r hr
      simpa using this
    · intro c hc
      rw [List.all_eq_true] at hcomps
      have := hcomps c hc
      simpa using this
  · have hpair := distinctRouteKeys_pairwise s.apiRoutes hkeys
    have hsymm : Symmetric (fun a b : ApiRouteSpec =>
        ¬(a.path = b.path ∧ a.method = b.method)) :=
      fun a b h hc => h ⟨hc.1.symm, hc.2.symm⟩
    intro a1 h1 a2 h2 hne
    exact hpair.forall hsymm h1 h2 hne

/-- Witness for C6 at the worked /todos example spec. -/
theorem validProjectSpec_closure_witness :
    (∀ p ∈ exampleProjectSpec.pages,
      (∀ r ∈ p.apiRoutes, ∃ a ∈ exampleProjectSpec.apiRoutes, a.path = r) ∧
      (∀ c ∈ p.components, ∃ comp ∈ exampleProjectSpec.components, comp.name = c)) ∧
    (∀ a1 ∈ exampleProjectSpec.apiRoutes, ∀ a2 ∈ exampleProjectSpec.apiRoutes,
      a1 ≠ a2 → ¬(a1.path = a2.path ∧ a1.method = a2.method)) :=
  validProjectSpec_closure exampleProjectSpec (by decide)

/-! ## Claim theorems: repair loop termination (C7, spec-modelled) -/

theorem loopStep_terminal {maxAttempts : Nat} {buildOk : Nat → Bool} {s : LoopState}
    (h : isTerminal s = true) : loopStep maxAttempts buildOk s = s := by
  obtain ⟨phase, attempts⟩ := s
  cases phase <;> simp [isTerminal] at h <;> rfl

theorem runLoop_add_absorb (maxAttempts : Nat) (buildOk : Nat → Bool) (n k : Nat)
    (h : isTerminal (runLoop maxAttempts buildOk n) = true) :
    runLoop maxAttempts buildOk (n + k) = runLoop maxAttempts buildOk n := by
  show (loopStep maxAttempts buildOk)^[n + k] initLoopState = _
  rw [Nat.add_comm, Function.iterate_add_apply]
  exact Function.iterate_fixed (loopStep_terminal h) k

theorem runLoop_attempts_invariant (maxAttempts : Nat) (buildOk : Nat → Bool) :
    ∀ n : Nat, (runLoop maxAttempts buildOk n).attempts ≤ maxAttempts ∧
      ((runLoop maxAttempts buildOk n).phase = LoopPhase.analyzing ∨
        (runLoop maxAttempts buildOk n).phase = LoopPhase.repairing →
        (runLoop maxAttempts buildOk n).attempts < maxAttempts) := by
  intro n
  induction n with
  | zero =>
    refine ⟨Nat.zero_le _, fun h => ?_⟩
    have h0 : runLoop maxAttempts buildOk 0 = initLoopState := rfl
    rw [h0] at h
    rcases h with h | h <;> simp [initLoopState] at h
  | succ n ih =>
    obtain ⟨h1, h2⟩ := ih
    have hstep : runLoop maxAttempts buildOk (n + 1) =
        loopStep maxAttempts buildOk (runLoop maxAttempts buildOk n) :=
      Function.iterate_succ_apply' _ n _
    rw [hstep]
    cases hp : (runLoop maxAttempts buildOk n).phase with
    | verifying =>
      by_cases hb : buildOk (runLoop maxAttempts buildOk n).attempts
      · have he : loopStep maxAttempts buildOk (runLoop maxAttempts buildOk n) =
            { phase := LoopPhase.succeeded,
              attempts := (runLoop maxAttempts buildOk n).attempts } := by
          simp [loopStep, hp, hb]
        rw [he]
        exact ⟨h1, fun h => by rcases h with h | h <;> simp at h⟩
      · by_cases hmax : (runLoop maxAttempts buildOk n).attempts = maxAttempts
        · have he : loopStep maxAttempts buildOk (runLoop maxAttempts buildOk n) =
              { phase := LoopPhase.exhausted,
                attempts := (runLoop maxAttempts buildOk n).attempts } := by
            simp only [loopStep, hp]
            rw [if_neg hb, if_pos hmax]
          rw [he]
          exact ⟨h1, fun h => by rcases h with h | h <;> simp at h⟩
        · have he : loopStep maxAttempts buildOk (runLoop maxAttempts buildOk n) =
              { phase := LoopPhase.analyzing,
                attempts := (runLoop maxAttempts buildOk n).attempts } := by
            simp only [loopStep, hp]
            rw [if_neg hb, if_neg hmax]
          rw [he]
          refine ⟨h1, fun _ => ?_⟩
          show (runLoop maxAttempts buildOk n).attempts < maxAttempts
          omega
    | analyzing =>
      have he : loopStep maxAttempts buildOk (runLoop maxAttempts buildOk n) =
          { phase := LoopPhase.repairing,
            attempts := (runLoop maxAttempts buildOk n).attempts } := by
        simp [loopStep, hp]
      rw [he]
      exact ⟨h1, fun _ => h2 (Or.inl hp)⟩
    | repairing =>
      have he : loopStep maxAttempts buildOk (runLoop maxAttempts buildOk n) =
          { phase := LoopPhase.verifying,
            attempts := (runLoop maxAttempts buildOk n).attempts + 1 } := by
        simp [loopStep, hp]
      rw [he]
      have hlt := h2 (Or.inr hp)
      refine ⟨?_, fun h => by rcases h with h | h <;> simp at h⟩
      show (runLoop maxAttempts buildOk n).attempts + 1 ≤ maxAttempts
      omega
    | succeeded =>
      have he : loopStep maxAttempts buildOk (runLoop maxAttempts buildOk n) =
          runLoop maxAttempts buildOk n :=
        loopStep_terminal (by simp [isTerminal, hp])
      rw [he]
      exact ⟨h1, h2⟩
    | exhausted =>
      have he : loopStep maxAttempts buildOk (runLoop maxAttempts buildOk n) =
          runLoop maxAttempts buildOk n :=
        loopStep_terminal (by simp [isTerminal, hp])
      rw [he]
      exact ⟨h1, h2⟩

theorem loop_verifying_terminates (maxAttempts : Nat) (buildOk : Nat → Bool) :
    ∀ k a : Nat, a ≤ maxAttempts → maxAttempts ≤ a + k →
    isTerminal ((loopStep maxAttempts buildOk)^[3 * k + 1]
      ⟨LoopPhase.verifying, a⟩) = true := by
  intro k
  induction k with
  | zero =>
    intro a h1 h2
    have ha : a = maxAttempts := Nat.le_antisymm h1 (by omega)
    show isTerminal ((loopStep maxAttempts buildOk)^[1]
      ⟨LoopPhase.verifying, a⟩) = true
    rw [Function.iterate_one]
    by_cases hb : buildOk a
    · have hstep : loopStep maxAttempts buildOk ⟨LoopPhase.verifying, a⟩ =
          ⟨LoopPhase.succeeded, a⟩ := by
        simp only [loopStep]
        rw [if_pos hb]
      rw [hstep]
      simp [isTerminal]
    · have hstep : loopStep maxAttempts buildOk ⟨LoopPhase.verifying, a⟩ =
          ⟨LoopPhase.exhausted, a⟩ := by
        simp only [loopStep]
        rw [if_neg hb, if_pos ha]
      rw [hstep]
      simp [isTerminal]
  | succ k ih =>
    intro a h1 h2
    by_cases hb : buildOk a
    · have hstep : loopStep maxAttempts buildOk ⟨LoopPhase.verifying, a⟩ =
          ⟨LoopPhase.succeeded, a⟩ := by simp [loopStep, hb]
      have heq : 3 * (k + 1) + 1 = (3 * k + 3) + 1 := by ring
      rw [heq, Function.iterate_succ_apply, hstep,
        Function.iterate_fixed (by rfl) (3 * k + 3)]
      rfl
    · by_cases hmax : a = maxAttempts
      · have hstep : loopStep maxAttempts buildOk ⟨LoopPhase.verifying, a⟩ =
            ⟨LoopPhase.exhausted, a⟩ := by
          simp only [loopStep]
          rw [if_neg hb, if_pos hmax]
        have heq : 3 * (k + 1) + 1 = (3 * k + 3) + 1 := by ring
        rw [heq, Function.iterate_succ_apply, hstep,
          Function.iterate_fixed (by rfl) (3 * k + 3)]
        rfl
      · have h3 : (loopStep maxAttempts buildOk)^[3] ⟨LoopPhase.verifying, a⟩ =
            ⟨LoopPhase.verifying, a + 1⟩ := by
          rw [Function.iterate_succ_apply, Function.iterate_succ_apply,
            Function.iterate_one]
          simp [loopStep, hb, hmax]
        have heq : 3 * (k + 1) + 1 = (3 * k + 1) + 3 := by ring
        rw [heq, Function.iterate_add_apply, h3]
        exact ih (a + 1) (by omega) (by omega)

/-- C7.  The repair loop always terminates: whatever the sequence of
build outcomes, the loop is in a terminal state (Succeeded or
Exhausted) after at most `3 * maxAttempts + 1` transitions (i.e. within
`maxAttempts` Verify→Repair cycles), the attempt counter never exceeds
the bound, and terminal states are absorbing — this holds in particular
when every verification fails identically, since the build-outcome
sequence is arbitrary and the error report plays no role in control
flow. -/
theorem repairLoop_terminates (maxAttempts : Nat) (buildOk : Nat → Bool) :
    isTerminal (runLoop maxAttempts buildOk (3 * maxAttempts + 1)) = true ∧
    (∀ n : Nat, (runLoop maxAttempts buildOk n).attempts ≤ maxAttempts) ∧
    (∀ n k : Nat, isTerminal (runLoop maxAttempts buildOk n) = true →
      runLoop maxAttempts buildOk (n + k) = runLoop maxAttempts buildOk n) := by
  refine ⟨?_, ?_, ?_⟩
  · exact loop_verifying_terminates maxAttempts buildOk maxAttempts 0
      (Nat.zero_le _) (by omega)
  · exact fun n => (runLoop_attempts_invariant maxAttempts buildOk n).1
  · exact fun n k h => runLoop_add_absorb maxAttempts buildOk n k h

/-- Witness for C7: a loop whose build always fails, bound 1. -/
theorem repairLoop_terminates_witness :
    isTerminal (runLoop 1 (fun _ => false) (3 * 1 + 1)) = true ∧
    runLoop 1 (fun _ => false) (3 * 1 + 1 + 2) = runLoop 1 (fun _ => false) (3 * 1 + 1) :=
  ⟨(repairLoop_terminates 1 (fun _ => false)).1,
   (repairLoop_terminates 1 (fun _ => false)).2.2 (3 * 1 + 1) 2
     (repairLoop_terminates 1 (fun _ => false)).1⟩

/-! ## Claim theorems: missing credentials are a startup error (C8) -/

/-- C8.  An absent `OPENAI_API_KEY` makes module initialization throw:
every pipeline stage run against such an environment yields the
initialization error, independently of the stage body (which therefore
never runs); with a nonempty key present, initialization succeeds and
the stage runs on the constructed client. -/
theorem missingApiKey_startup_error :
    initOpenAIModule none =
      Except.error "Missing OPENAI_API_KEY environment variable" ∧
    (∀ (α : Type) (stage : OpenAIClient → α),
      runPipelineStage none stage =
        Except.error "Missing OPENAI_API_KEY environment variable") ∧
    (∀ (α : Type) (s1 s2 : OpenAIClient → α),
      runPipelineStage none s1 = runPipelineStage none s2) ∧
    (∀ key : String, key ≠ "" → ∀ (α : Type) (stage : OpenAIClient → α),
      runPipelineStage (some key) stage = Except.ok (stage ⟨key⟩)) := by
  refine ⟨rfl, fun _ _ => rfl, fun _ _ _ => rfl, ?_⟩
  intro key hk α stage
  simp [runPipelineStage, initOpenAIModule, hk, Except.map]

/-- Witness for C8 at a concrete key and stage. -/
theorem missingApiKey_startup_error_witness :
    runPipelineStage (some "sk-test") (fun c => c.apiKey) = Except.ok "sk-test" :=
  missingApiKey_startup_error.2.2.2 "sk-test" (by decide) String (fun c => c.apiKey)
